import Mathlib

/-!
Verification of the Modbus TCP to Modbus RTU gateway (`modbus-gateway.py`).

The development shallowly embeds the gateway's pure core: CRC-16 construction
and verification, MBAP framing on the TCP side, the RTU worker's response
reader and retry loop, and the per-session response construction.  Bytes are
modelled as natural numbers (with `< 256` hypotheses where byte-ness matters),
byte strings as `List Nat`, and the serial port as the list of bytes it will
deliver (a short list models a read timeout).
-/

/-! ## CRC-16 (Modbus) — `crc16_calculate`, `crc16_verify` -/

/-- One iteration of the inner bit loop of `crc16_calculate`:
if the least significant bit is set, shift right and XOR with `0xA001`,
else just shift right. -/
def crc16_step (crc : Nat) : Nat :=
  if crc &&& 1 = 1 then (crc >>> 1) ^^^ 0xA001 else crc >>> 1

/-- The eight-fold bit loop (`for _ in range(8)`) of `crc16_calculate`. -/
def crc16_rounds : Nat → Nat → Nat
  | 0, crc => crc
  | n + 1, crc => crc16_rounds n (crc16_step crc)

/-- The byte loop of `crc16_calculate`: XOR each message byte into the
accumulator, then run eight bit rounds. -/
def crc16_body : List Nat → Nat → Nat
  | [], crc => crc
  | b :: rest, crc => crc16_body rest (crc16_rounds 8 (crc ^^^ b))

/-- Model of `crc16_calculate`: accumulator initialised to `0xFFFF`, result
emitted little-endian (`struct.pack('<H', crc)`): low byte then high byte. -/
def crc16_calculate (data : List Nat) : List Nat :=
  let crc := crc16_body data 0xFFFF
  [crc % 256, (crc >>> 8) % 256]

/-- Model of `crc16_verify`: frames shorter than 3 bytes are invalid; otherwise
recompute the CRC over all but the last two bytes and compare with those
two bytes. -/
def crc16_verify (data : List Nat) : Bool :=
  if data.length < 3 then false
  else
    data.drop (data.length - 2) == crc16_calculate (data.take (data.length - 2))

/-! ### Basic CRC facts -/

theorem crc16_step_zero : crc16_step 0 = 0 := by decide

theorem crc16_step_lt (c : Nat) (h : c < 65536) : crc16_step c < 65536 := by
  unfold crc16_step
  have hdiv : c >>> 1 = c / 2 := by
    rw [Nat.shiftRight_eq_div_pow]
  have hs : c >>> 1 < 65536 := by rw [hdiv]; omega
  split
  · have : (65536 : Nat) = 2 ^ 16 := by norm_num
    rw [this] at hs ⊢
    exact Nat.xor_lt_two_pow hs (by norm_num)
  · exact hs

theorem crc16_step_ne_zero (c : Nat) (hlt : c < 65536) (hne : c ≠ 0) :
    crc16_step c ≠ 0 := by
  intro h
  have hdiv : c >>> 1 = c / 2 := by
    rw [Nat.shiftRight_eq_div_pow]
  unfold crc16_step at h
  by_cases hb : c &&& 1 = 1
  · rw [if_pos hb] at h
    have h2 : c >>> 1 = 0xA001 := Nat.xor_eq_zero.mp h
    rw [hdiv] at h2
    omega
  · rw [if_neg hb] at h
    rw [hdiv] at h
    rw [Nat.and_one_is_mod] at hb
    omega

theorem crc16_step_xor (a b : Nat) :
    crc16_step (a ^^^ b) = crc16_step a ^^^ crc16_step b := by
  have hshift : (a ^^^ b) >>> 1 = a >>> 1 ^^^ b >>> 1 := by
    apply Nat.eq_of_testBit_eq
    intro i
    simp [Nat.testBit_shiftRight, Nat.testBit_xor]
  have hand : (a ^^^ b) &&& 1 = (a &&& 1) ^^^ (b &&& 1) := Nat.and_xor_distrib_right
  have ha2 : a &&& 1 = 0 ∨ a &&& 1 = 1 := by rw [Nat.and_one_is_mod]; omega
  have hb2 : b &&& 1 = 0 ∨ b &&& 1 = 1 := by rw [Nat.and_one_is_mod]; omega
  unfold crc16_step
  rcases ha2 with ha | ha <;> rcases hb2 with hb | hb <;>
    rw [ha, hb] at hand <;>
    simp only [ha, hb, hand] <;>
    norm_num [hshift] <;>
    (apply Nat.eq_of_testBit_eq; intro i;
     simp [Nat.testBit_xor, Bool.xor_assoc, Bool.xor_comm, Bool.xor_left_comm])

theorem crc16_rounds_zero (n : Nat) : crc16_rounds n 0 = 0 := by
  induction n with
  | zero => rfl
  | succ n ih => simp [crc16_rounds, crc16_step_zero, ih]

theorem crc16_rounds_lt (n c : Nat) (h : c < 65536) : crc16_rounds n c < 65536 := by
  induction n generalizing c with
  | zero => simpa [crc16_rounds] using h
  | succ n ih => exact ih _ (crc16_step_lt c h)

theorem crc16_rounds_ne_zero (n c : Nat) (hlt : c < 65536) (hne : c ≠ 0) :
    crc16_rounds n c ≠ 0 := by
  induction n generalizing c with
  | zero => simpa [crc16_rounds] using hne
  | succ n ih => exact ih _ (crc16_step_lt c hlt) (crc16_step_ne_zero c hlt hne)

theorem crc16_rounds_xor (n a b : Nat) :
    crc16_rounds n (a ^^^ b) = crc16_rounds n a ^^^ crc16_rounds n b := by
  induction n generalizing a b with
  | zero => rfl
  | succ n ih => simp [crc16_rounds, crc16_step_xor, ih]

theorem crc16_body_append (l r : List Nat) (c : Nat) :
    crc16_body (l ++ r) c = crc16_body r (crc16_body l c) := by
  induction l generalizing c with
  | nil => rfl
  | cons x xs ih => simp [crc16_body, ih]

theorem crc16_body_lt (l : List Nat) (c : Nat) (hc : c < 65536)
    (hl : ∀ x ∈ l, x < 65536) : crc16_body l c < 65536 := by
  induction l generalizing c with
  | nil => simpa [crc16_body] using hc
  | cons x xs ih =>
    simp only [crc16_body]
    have hx : x < 65536 := hl x (by simp)
    have : (65536 : Nat) = 2 ^ 16 := by norm_num
    refine ih _ (crc16_rounds_lt 8 _ ?_) (fun y hy => hl y (by simp [hy]))
    rw [this] at hc hx ⊢
    exact Nat.xor_lt_two_pow hc hx

theorem crc16_body_xor (m e : List Nat) (c d : Nat) (h : m.length = e.length) :
    crc16_body (List.zipWith (· ^^^ ·) m e) (c ^^^ d) =
      crc16_body m c ^^^ crc16_body e d := by
  induction m generalizing e c d with
  | nil =>
    cases e with
    | nil => simp [crc16_body]
    | cons y ys => simp at h
  | cons x xs ih =>
    cases e with
    | nil => simp at h
    | cons y ys =>
      simp only [List.zipWith_cons_cons, crc16_body]
      have hxy : (c ^^^ d) ^^^ (x ^^^ y) = (c ^^^ x) ^^^ (d ^^^ y) := by
        apply Nat.eq_of_testBit_eq
        intro i
        simp [Nat.testBit_xor, Bool.xor_assoc, Bool.xor_comm, Bool.xor_left_comm]
      rw [hxy, crc16_rounds_xor]
      exact ih ys _ _ (by simpa using h)

theorem crc16_body_zeros_ne_zero (m : Nat) (c : Nat) (hlt : c < 65536)
    (hne : c ≠ 0) : crc16_body (List.replicate m 0) c ≠ 0 := by
  induction m generalizing c with
  | zero => simpa [crc16_body] using hne
  | succ m ih =>
    simp only [List.replicate_succ, crc16_body, Nat.xor_zero]
    exact ih _ (crc16_rounds_lt 8 _ hlt) (crc16_rounds_ne_zero 8 _ hlt hne)

theorem crc16_body_zeros_from_zero (m : Nat) :
    crc16_body (List.replicate m 0) 0 = 0 := by
  induction m with
  | zero => rfl
  | succ m ih =>
    simp [List.replicate_succ, crc16_body, crc16_rounds_zero, ih]

/-- The CRC syndrome of a message that is all zeros except for a single set
bit is nonzero: the gateway's CRC detects every single-bit error. -/
theorem crc16_syndrome_ne_zero (i m j : Nat) (hj : j < 16) :
    crc16_body (List.replicate i 0 ++ (1 <<< j) :: List.replicate m 0) 0 ≠ 0 := by
  rw [crc16_body_append, crc16_body_zeros_from_zero]
  simp only [crc16_body, Nat.zero_xor]
  have hpow : (1 <<< j) = 2 ^ j := by
    rw [Nat.shiftLeft_eq, one_mul]
  have hlt : (1 <<< j) < 65536 := by
    rw [hpow]
    calc 2 ^ j < 2 ^ 16 := Nat.pow_lt_pow_right (by norm_num) hj
    _ = 65536 := by norm_num
  have hne : (1 <<< j) ≠ 0 := by
    rw [hpow]; positivity
  exact crc16_body_zeros_ne_zero m _ (crc16_rounds_lt 8 _ hlt)
    (crc16_rounds_ne_zero 8 _ hlt hne)

theorem xor_ne_self_of_ne_zero (c s : Nat) (h : s ≠ 0) : c ^^^ s ≠ c := by
  intro he
  have h2 : c ^^^ (c ^^^ s) = c ^^^ c := by rw [he]
  rw [← Nat.xor_assoc, Nat.xor_self, Nat.zero_xor] at h2
  exact h h2

theorem crc16_pack_injective (c d : Nat) (hc : c < 65536) (hd : d < 65536)
    (hne : c ≠ d) :
    [c % 256, (c >>> 8) % 256] ≠ [d % 256, (d >>> 8) % 256] := by
  intro h
  simp only [List.cons.injEq, and_true] at h
  obtain ⟨h1, h2⟩ := h
  rw [Nat.shiftRight_eq_div_pow, Nat.shiftRight_eq_div_pow] at h2
  norm_num at h2
  omega

theorem zipWith_xor_replicate_zero (l : List Nat) :
    List.zipWith (· ^^^ ·) l (List.replicate l.length 0) = l := by
  induction l with
  | nil => rfl
  | cons x xs ih => simp [List.replicate_succ, ih]

theorem set_xor_eq_zipWith (l : List Nat) (i v : Nat) (h : i < l.length) :
    l.set i (l.getD i 0 ^^^ v) =
      List.zipWith (· ^^^ ·) l
        (List.replicate i 0 ++ v :: List.replicate (l.length - i - 1) 0) := by
  induction l generalizing i with
  | nil => simp at h
  | cons x xs ih =>
    cases i with
    | zero =>
      simp only [List.getD_cons_zero, List.set, List.replicate,
        List.nil_append, List.zipWith_cons_cons, List.length_cons,
        Nat.add_sub_cancel]
      have hl : xs.length + 1 - 0 - 1 = xs.length := by omega
      rw [hl, zipWith_xor_replicate_zero]
    | succ i =>
      simp only [List.getD_cons_succ, List.set, List.replicate_succ,
        List.cons_append, List.zipWith_cons_cons, Nat.xor_zero,
        List.length_cons]
      have hlen : xs.length + 1 - (i + 1) - 1 = xs.length - i - 1 := by omega
      rw [hlen, ih i (by simpa using h)]

/-- Flipping one bit of one byte of a message changes its CRC: the two
16-bit CRC values differ, hence so do the emitted CRC byte pairs. -/
theorem crc16_calculate_flip_ne (b : List Nat) (i j : Nat)
    (hi : i < b.length) (hj : j < 8) (hb : ∀ x ∈ b, x < 256) :
    crc16_calculate (b.set i (b.getD i 0 ^^^ (1 <<< j))) ≠ crc16_calculate b := by
  have hb16 : ∀ x ∈ b, x < 65536 := fun x hx => lt_trans (hb x hx) (by norm_num)
  have hc : crc16_body b 0xFFFF < 65536 := crc16_body_lt b _ (by norm_num) hb16
  have hv16 : (1 <<< j) < 65536 := by
    rw [Nat.shiftLeft_eq, one_mul]
    calc (2 : Nat) ^ j < 2 ^ 16 := Nat.pow_lt_pow_right (by norm_num) (by omega)
    _ = 65536 := by norm_num
  have hset16 : ∀ x ∈ b.set i (b.getD i 0 ^^^ (1 <<< j)), x < 65536 := by
    intro x hx
    rcases List.mem_or_eq_of_mem_set hx with hx2 | hx2
    · exact hb16 x hx2
    · subst hx2
      have h1 : b.getD i 0 < 65536 := by
        rw [List.getD_eq_getElem?_getD, List.getElem?_eq_getElem hi]
        exact hb16 _ (List.getElem_mem hi)
      have h2 : (65536 : Nat) = 2 ^ 16 := by norm_num
      rw [h2] at h1 hv16 ⊢
      exact Nat.xor_lt_two_pow h1 hv16
  have hcset : crc16_body (b.set i (b.getD i 0 ^^^ (1 <<< j))) 0xFFFF < 65536 :=
    crc16_body_lt _ _ (by norm_num) hset16
  -- the flipped message is the XOR of the original with a one-bit error word
  have hzip := set_xor_eq_zipWith b i (1 <<< j) hi
  have hlen : b.length =
      (List.replicate i 0 ++ (1 <<< j) :: List.replicate (b.length - i - 1) 0).length := by
    simp
    omega
  have hxor : crc16_body (b.set i (b.getD i 0 ^^^ (1 <<< j))) 0xFFFF =
      crc16_body b 0xFFFF ^^^
        crc16_body (List.replicate i 0 ++ (1 <<< j) :: List.replicate (b.length - i - 1) 0) 0 := by
    rw [hzip]
    have h0 : (0xFFFF : Nat) = 0xFFFF ^^^ 0 := by rw [Nat.xor_zero]
    rw [h0, crc16_body_xor b _ _ _ hlen, Nat.xor_zero]
  have hsyn := crc16_syndrome_ne_zero i (b.length - i - 1) j (by omega)
  have hne : crc16_body (b.set i (b.getD i 0 ^^^ (1 <<< j))) 0xFFFF ≠
      crc16_body b 0xFFFF := by
    rw [hxor]
    rw [Nat.xor_comm]
    exact fun he => xor_ne_self_of_ne_zero _ _ hsyn (by rw [Nat.xor_comm] at he; exact he)
  simp only [crc16_calculate]
  exact crc16_pack_injective _ _ hcset hc hne

/-- Flipping bit `j` of byte `i` of a byte string. -/
def flip_bit (l : List Nat) (i j : Nat) : List Nat :=
  l.set i (l.getD i 0 ^^^ (1 <<< j))

theorem crc16_verify_frame_of_calculate (b : List Nat) (h1 : 1 ≤ b.length) :
    crc16_verify (b ++ crc16_calculate b) = true := by
  have hc2 : (crc16_calculate b).length = 2 := by simp [crc16_calculate]
  unfold crc16_verify
  rw [List.length_append, hc2]
  rw [if_neg (by omega)]
  rw [List.take_left' (by omega), List.drop_left' (by omega)]
  exact beq_self_eq_true _

/-- CRC round-trip with single-bit error detection, claim C2.  Appending the
computed CRC to a message yields a frame `crc16_verify` accepts, and flipping
any single bit anywhere in that frame (message bytes or CRC bytes) makes
`crc16_verify` reject it. -/
theorem crc16_round_trip_bitflip (b : List Nat) (h1 : 1 ≤ b.length)
    (h2 : b.length ≤ 254) (hb : ∀ x ∈ b, x < 256) :
    crc16_verify (b ++ crc16_calculate b) = true ∧
    ∀ i j, i < b.length + 2 → j < 8 →
      crc16_verify (flip_bit (b ++ crc16_calculate b) i j) = false := by
  have hc2 : (crc16_calculate b).length = 2 := by simp [crc16_calculate]
  refine ⟨crc16_verify_frame_of_calculate b h1, ?_⟩
  intro i j hi hj
  have hvne : (1 <<< j) ≠ 0 := by
    rw [Nat.shiftLeft_eq, one_mul]
    positivity
  by_cases hcase : i < b.length
  · -- bit flip inside the message part
    have hget : (b ++ crc16_calculate b).getD i 0 = b.getD i 0 :=
      List.getD_append _ _ _ _ hcase
    have hset : (b ++ crc16_calculate b).set i (b.getD i 0 ^^^ (1 <<< j)) =
        b.set i (b.getD i 0 ^^^ (1 <<< j)) ++ crc16_calculate b :=
      List.set_append_left _ _ hcase
    unfold flip_bit
    rw [hget, hset]
    have hlenb : (b.set i (b.getD i 0 ^^^ (1 <<< j))).length = b.length :=
      List.length_set b _ _
    unfold crc16_verify
    rw [List.length_append, hlenb, hc2]
    rw [if_neg (by omega)]
    rw [List.take_left' (by omega), List.drop_left' (by omega)]
    rw [beq_eq_false_iff_ne]
    exact fun he => crc16_calculate_flip_ne b i j hcase hj hb he.symm
  · -- bit flip inside the two CRC bytes
    have hge : b.length ≤ i := le_of_not_lt hcase
    have hget : (b ++ crc16_calculate b).getD i 0 =
        (crc16_calculate b).getD (i - b.length) 0 :=
      List.getD_append_right _ _ _ _ hge
    have hset : (b ++ crc16_calculate b).set i
        ((crc16_calculate b).getD (i - b.length) 0 ^^^ (1 <<< j)) =
        b ++ (crc16_calculate b).set (i - b.length)
          ((crc16_calculate b).getD (i - b.length) 0 ^^^ (1 <<< j)) :=
      List.set_append_right _ _ hge
    unfold flip_bit
    rw [hget, hset]
    have hlenc : ((crc16_calculate b).set (i - b.length)
        ((crc16_calculate b).getD (i - b.length) 0 ^^^ (1 <<< j))).length = 2 := by
      rw [List.length_set]; exact hc2
    unfold crc16_verify
    rw [List.length_append, hlenc]
    rw [if_neg (by omega)]
    rw [List.take_left' (by omega), List.drop_left' (by omega)]
    rw [beq_eq_false_iff_ne]
    have hk : i - b.length = 0 ∨ i - b.length = 1 := by omega
    simp only [crc16_calculate]
    rcases hk with hk | hk <;> rw [hk] <;> simp only [List.getD_cons_zero,
      List.getD_cons_succ, List.set] <;> intro he <;>
      simp only [List.cons.injEq, and_true] at he
    · exact xor_ne_self_of_ne_zero _ _ hvne he
    · exact xor_ne_self_of_ne_zero _ _ hvne he.2

/-- Witness for claim C2 at the concrete one-byte message `[0x11]`. -/
theorem crc16_round_trip_bitflip_witness :
    crc16_verify ([0x11] ++ crc16_calculate [0x11]) = true ∧
    ∀ i j, i < [0x11].length + 2 → j < 8 →
      crc16_verify (flip_bit ([0x11] ++ crc16_calculate [0x11]) i j) = false :=
  crc16_round_trip_bitflip [0x11] (by decide) (by decide) (by decide)

/-! ## Modbus TCP session side — `ModbusGatewayHandler` -/

/-- Big-endian 16-bit packing, as done by `struct.pack` with a `>H` field. -/
def be16 (x : Nat) : List Nat :=
  [(x >>> 8) % 256, x % 256]

/-- Model of `send_response`: the MBAP header
`struct.pack('>HHHB', transaction_id, 0, len(pdu) + 1, unit_id)`
followed by the PDU bytes. -/
def send_response_frame (transaction_id unit_id : Nat) (pdu : List Nat) : List Nat :=
  be16 transaction_id ++ be16 0 ++ be16 (pdu.length + 1) ++ [unit_id] ++ pdu

/-- Model of `send_exception`: exception PDU
`[function_code | 0x80, exception_code]` where `function_code` is the first
byte of the request PDU, sent through `send_response`. -/
def send_exception_frame (transaction_id unit_id : Nat) (request_pdu : List Nat)
    (exception_code : Nat) : List Nat :=
  send_response_frame transaction_id unit_id
    [(request_pdu.getD 0 0) ||| 0x80, exception_code]

/-- Result of one iteration of the `handle` read loop on the remaining input
byte stream: the session closes the connection, skips a frame and continues
reading (no response bytes sent), or obtains a complete request. -/
inductive SessionStep where
  | closed
  | skipped (rest : List Nat)
  | request (transaction_id unit_id : Nat) (pdu : List Nat) (rest : List Nat)
deriving DecidableEq

/-- Model of the header-parsing part of `handle`: read 7 MBAP header bytes
(end of stream closes the session), unpack the big-endian fields, skip the
frame when the protocol id is nonzero or the PDU length is out of range
(the loop `continue`s with only the 7 header bytes consumed), otherwise read
`length - 1` PDU bytes (end of stream closes the session). -/
def handle_read_request (stream : List Nat) : SessionStep :=
  if stream.length < 7 then SessionStep.closed
  else
    let transaction_id := stream.getD 0 0 * 256 + stream.getD 1 0
    let protocol_id := stream.getD 2 0 * 256 + stream.getD 3 0
    let length := stream.getD 4 0 * 256 + stream.getD 5 0
    let unit_id := stream.getD 6 0
    if protocol_id ≠ 0 then SessionStep.skipped (stream.drop 7)
    else
      let pdu_length : Int := (length : Int) - 1
      if pdu_length < 1 ∨ 253 < pdu_length then SessionStep.skipped (stream.drop 7)
      else if (stream.drop 7).length < pdu_length.toNat then SessionStep.closed
      else SessionStep.request transaction_id unit_id
        ((stream.drop 7).take pdu_length.toNat) (stream.drop (7 + pdu_length.toNat))

/-- MBAP round-trip, claim C3: parsing a frame produced by `send_response`
(followed by any further bytes) recovers exactly the transaction id, unit id
and PDU, and the encoder emits big-endian transaction id, two zero protocol
bytes, big-endian `1 + len(pdu)`, the unit id, then the PDU. -/
theorem mbap_round_trip (transaction_id unit_id : Nat) (pdu rest : List Nat)
    (htx : transaction_id < 65536) (hunit : unit_id < 256)
    (h1 : 1 ≤ pdu.length) (h2 : pdu.length ≤ 253) :
    handle_read_request (send_response_frame transaction_id unit_id pdu ++ rest) =
      SessionStep.request transaction_id unit_id pdu rest ∧
    send_response_frame transaction_id unit_id pdu =
      [(transaction_id >>> 8) % 256, transaction_id % 256, 0, 0,
        ((pdu.length + 1) >>> 8) % 256, (pdu.length + 1) % 256, unit_id] ++ pdu := by
  have hframe : send_response_frame transaction_id unit_id pdu ++ rest =
      (transaction_id >>> 8) % 256 :: transaction_id % 256 :: 0 :: 0 ::
      ((pdu.length + 1) >>> 8) % 256 :: (pdu.length + 1) % 256 :: unit_id ::
      (pdu ++ rest) := by
    simp [send_response_frame, be16]
  have htx8 : transaction_id >>> 8 = transaction_id / 256 := by
    rw [Nat.shiftRight_eq_div_pow]
  have hlen8 : (pdu.length + 1) >>> 8 = (pdu.length + 1) / 256 := by
    rw [Nat.shiftRight_eq_div_pow]
  have htxv : (transaction_id >>> 8) % 256 * 256 + transaction_id % 256 =
      transaction_id := by rw [htx8]; omega
  have hlenv : ((pdu.length + 1) >>> 8) % 256 * 256 + (pdu.length + 1) % 256 =
      pdu.length + 1 := by rw [hlen8]; omega
  constructor
  · rw [hframe]
    unfold handle_read_request
    simp only [List.getD_cons_zero, List.getD_cons_succ, List.length_cons]
    rw [if_neg (by omega)]
    rw [htxv, hlenv]
    have hdrop7 : ((transaction_id >>> 8) % 256 :: transaction_id % 256 :: 0 :: 0 ::
        ((pdu.length + 1) >>> 8) % 256 :: (pdu.length + 1) % 256 :: unit_id ::
        (pdu ++ rest)).drop 7 = pdu ++ rest := rfl
    have hpl : ((pdu.length + 1 : Nat) : Int) - 1 = (pdu.length : Int) := by omega
    rw [if_neg (by omega), hpl, if_neg (by omega)]
    have htn : ((pdu.length : Int)).toNat = pdu.length := by omega
    rw [htn, hdrop7]
    rw [if_neg (by simp only [List.length_append]; omega)]
    rw [List.take_left' rfl]
    have hdall : ((transaction_id >>> 8) % 256 :: transaction_id % 256 :: 0 :: 0 ::
        ((pdu.length + 1) >>> 8) % 256 :: (pdu.length + 1) % 256 :: unit_id ::
        (pdu ++ rest)).drop (7 + pdu.length) = (pdu ++ rest).drop pdu.length := by
      rw [← List.drop_drop, hdrop7]
    rw [hdall, List.drop_left]
  · simp [send_response_frame, be16]

/-- Witness for claim C3 at scenario S1 of the specification:
transaction id 1, unit `0x11`, read-holding-registers PDU. -/
theorem mbap_round_trip_witness :
    handle_read_request (send_response_frame 1 0x11 [0x03, 0x00, 0x6B, 0x00, 0x03] ++ []) =
      SessionStep.request 1 0x11 [0x03, 0x00, 0x6B, 0x00, 0x03] [] ∧
    send_response_frame 1 0x11 [0x03, 0x00, 0x6B, 0x00, 0x03] =
      [0, 1, 0, 0, 0, 6, 0x11] ++ [0x03, 0x00, 0x6B, 0x00, 0x03] :=
  ⟨(mbap_round_trip 1 0x11 [0x03, 0x00, 0x6B, 0x00, 0x03] []
      (by decide) (by decide) (by decide) (by decide)).1,
   by decide⟩

/-! ## RTU worker — `RTUWorker.read_rtu_response` and `process_request`

The serial port is modelled by the list of bytes it will deliver before the
read timeout fires: `serial.read(n)` yields `take n` of what is left, and a
short result models a timeout. -/

/-- Model of `get_response_length`: fixed four data bytes for function codes
`0x05, 0x06, 0x0F, 0x10`, `none` (byte-count-prefixed) otherwise.  As in the
source, the request PDU argument is accepted but never consulted. -/
def get_response_length (function_code : Nat) (request_pdu : List Nat) : Option Nat :=
  if function_code = 0x05 ∨ function_code = 0x06 ∨ function_code = 0x0F ∨
      function_code = 0x10 then
    some 4
  else
    none

/-- Model of the reading part of `read_rtu_response`, before CRC
verification: read two header bytes (unit id and function code); on an
exception reply (bit 7 of the function code set) read three more bytes; on a
fixed-length reply read the four data bytes plus two CRC bytes; otherwise
read the byte count `n` and then `n + 2` further bytes.  Returns the whole
received frame, or `none` on a short (timed-out) read. -/
def read_rtu_frame (stream : List Nat) (request_pdu : List Nat) : Option (List Nat) :=
  let header := stream.take 2
  if header.length < 2 then none
  else
    let function_code := header.getD 1 0
    if function_code &&& 0x80 ≠ 0 then
      let remaining := (stream.drop 2).take 3
      if remaining.length < 3 then none else some (header ++ remaining)
    else
      match get_response_length function_code request_pdu with
      | some data_length =>
        let remaining := (stream.drop 2).take (data_length + 2)
        if remaining.length < data_length + 2 then none
        else some (header ++ remaining)
      | none =>
        let byte_count_raw := (stream.drop 2).take 1
        if byte_count_raw.length < 1 then none
        else
          let byte_count := byte_count_raw.getD 0 0
          let remaining := (stream.drop 3).take (byte_count + 2)
          if remaining.length < byte_count + 2 then none
          else some (header ++ byte_count_raw ++ remaining)

/-- Model of `read_rtu_response`: read a frame, reject it unless its CRC
verifies, and return it stripped of the leading unit id byte and the two
trailing CRC bytes (`response[1:-2]`). -/
def read_rtu_response (stream : List Nat) (request_pdu : List Nat) : Option (List Nat) :=
  match read_rtu_frame stream request_pdu with
  | none => none
  | some response =>
    if crc16_verify response = false then none
    else some ((response.drop 1).dropLast.dropLast)

theorem getD_take_of_lt (l : List Nat) (n i : Nat) (d : Nat) (h : i < n) :
    (l.take n).getD i d = l.getD i d := by
  simp only [List.getD_eq_getElem?_getD]
  rw [List.getElem?_take_of_lt h]

theorem getD_drop_add (l : List Nat) (n i : Nat) (d : Nat) :
    (l.drop n).getD i d = l.getD (n + i) d := by
  simp only [List.getD_eq_getElem?_getD]
  rw [List.getElem?_drop]

/-- Modelled from the claim's words (spec section 4.1): the total frame
length the response-shape classifier is claimed to read, keyed on the
REQUEST function code for the fixed-echo case. -/
def claimed_frame_length (request_fc : Nat) (stream : List Nat) : Nat :=
  if stream.getD 1 0 &&& 0x80 ≠ 0 then 5
  else if request_fc = 0x05 ∨ request_fc = 0x06 ∨ request_fc = 0x0F ∨
      request_fc = 0x10 then 8
  else 1 + 1 + 1 + stream.getD 2 0 + 2

/-- A reply stream whose received function code is `0x06` (fixed echo)
while the request carried function code `0x03` (byte-count-prefixed). -/
def c4_stream : List Nat := [0x11, 0x06, 0x00, 0x01, 0x00, 0x03, 0x9A, 0x9B]

/-- Counterexample to claim C4 as stated: the worker reads a frame of 8
bytes from `c4_stream` because the RECEIVED function code `0x06` is a fixed
echo code, whereas dispatching on the request function code `0x03`, as the
claim prescribes, would demand a byte-count-prefixed read of
`1+1+1+0+2 = 5` bytes. -/
theorem response_shape_request_fc_counterexample :
    (read_rtu_frame c4_stream [0x03, 0x00, 0x6B, 0x00, 0x03]).map List.length =
      some 8 ∧
    claimed_frame_length 0x03 c4_stream = 5 ∧ (8 : Nat) ≠ 5 := by decide

/-- Response-shape classification, claim C4 amended: the dispatch in
`read_rtu_response` is keyed on the function code byte RECEIVED on the wire
(not on the request's function code, which the reader never consults).
With enough buffered bytes: an exception reply (bit 7 set) is read as a
5-byte frame; a received fixed-echo code in `{0x05, 0x06, 0x0F, 0x10}` as an
8-byte frame; any other received code as a `1+1+1+n+2`-byte frame where `n`
is the byte following the function code. -/
theorem response_shape_received_fc (stream request_pdu : List Nat) :
    (stream.getD 1 0 &&& 0x80 ≠ 0 → 5 ≤ stream.length →
      read_rtu_frame stream request_pdu = some (stream.take 5)) ∧
    (stream.getD 1 0 &&& 0x80 = 0 →
      (stream.getD 1 0 = 0x05 ∨ stream.getD 1 0 = 0x06 ∨
        stream.getD 1 0 = 0x0F ∨ stream.getD 1 0 = 0x10) →
      8 ≤ stream.length →
      read_rtu_frame stream request_pdu = some (stream.take 8)) ∧
    (stream.getD 1 0 &&& 0x80 = 0 →
      ¬(stream.getD 1 0 = 0x05 ∨ stream.getD 1 0 = 0x06 ∨
        stream.getD 1 0 = 0x0F ∨ stream.getD 1 0 = 0x10) →
      5 + stream.getD 2 0 ≤ stream.length →
      read_rtu_frame stream request_pdu =
        some (stream.take (1 + 1 + 1 + stream.getD 2 0 + 2))) := by
  refine ⟨?_, ?_, ?_⟩
  · intro hexc hlen
    unfold read_rtu_frame
    have hh : (stream.take 2).length = 2 := by
      rw [List.length_take]; omega
    rw [if_neg (by omega)]
    have hfc : (stream.take 2).getD 1 0 = stream.getD 1 0 :=
      getD_take_of_lt stream 2 1 0 (by omega)
    rw [hfc, if_pos hexc]
    have hr : ((stream.drop 2).take 3).length = 3 := by
      rw [List.length_take, List.length_drop]; omega
    rw [if_neg (by omega)]
    have h5 : stream.take 5 = stream.take 2 ++ (stream.drop 2).take 3 := by
      have : (5 : Nat) = 2 + 3 := by norm_num
      rw [this, List.take_add]
    rw [h5]
  · intro hexc hfixed hlen
    unfold read_rtu_frame
    have hh : (stream.take 2).length = 2 := by
      rw [List.length_take]; omega
    rw [if_neg (by omega)]
    have hfc : (stream.take 2).getD 1 0 = stream.getD 1 0 :=
      getD_take_of_lt stream 2 1 0 (by omega)
    rw [hfc, if_neg (by rw [hexc]; simp)]
    unfold get_response_length
    rw [if_pos hfixed]
    have hr : ((stream.drop 2).take (4 + 2)).length = 4 + 2 := by
      rw [List.length_take, List.length_drop]; omega
    simp only
    rw [if_neg (by omega)]
    have h8 : stream.take 8 = stream.take 2 ++ (stream.drop 2).take (4 + 2) := by
      have : (8 : Nat) = 2 + (4 + 2) := by norm_num
      rw [this, List.take_add]
    rw [h8]
  · intro hexc hvar hlen
    unfold read_rtu_frame
    have hh : (stream.take 2).length = 2 := by
      rw [List.length_take]; omega
    rw [if_neg (by omega)]
    have hfc : (stream.take 2).getD 1 0 = stream.getD 1 0 :=
      getD_take_of_lt stream 2 1 0 (by omega)
    rw [hfc, if_neg (by rw [hexc]; simp)]
    unfold get_response_length
    rw [if_neg hvar]
    have hb1 : ((stream.drop 2).take 1).length = 1 := by
      rw [List.length_take, List.length_drop]; omega
    simp only
    rw [if_neg (by omega)]
    have hbc : ((stream.drop 2).take 1).getD 0 0 = stream.getD 2 0 := by
      rw [getD_take_of_lt _ 1 0 0 (by omega), getD_drop_add]
    rw [hbc]
    have hr : ((stream.drop 3).take (stream.getD 2 0 + 2)).length =
        stream.getD 2 0 + 2 := by
      rw [List.length_take, List.length_drop]; omega
    rw [if_neg (by omega)]
    have hsplit : stream.take (1 + 1 + 1 + stream.getD 2 0 + 2) =
        stream.take 2 ++ (stream.drop 2).take 1 ++
          (stream.drop 3).take (stream.getD 2 0 + 2) := by
      have h3 : stream.take 3 = stream.take 2 ++ (stream.drop 2).take 1 := by
        have : (3 : Nat) = 2 + 1 := by norm_num
        rw [this, List.take_add]
      have h0 : (1 + 1 + 1 + stream.getD 2 0 + 2 : Nat) =
          3 + (stream.getD 2 0 + 2) := by omega
      rw [h0, List.take_add, h3]
    rw [hsplit]

/-- Witness for the amended claim C4: each of the three shapes evaluated at
a concrete reply stream. -/
theorem response_shape_received_fc_witness :
    read_rtu_frame [0x11, 0x83, 0x02, 0x9A, 0x9B] [] =
      some ([0x11, 0x83, 0x02, 0x9A, 0x9B].take 5) ∧
    read_rtu_frame c4_stream [] = some (c4_stream.take 8) ∧
    read_rtu_frame [0x11, 0x03, 0x02, 0xAA, 0xBB, 0x9A, 0x9B] [] =
      some ([0x11, 0x03, 0x02, 0xAA, 0xBB, 0x9A, 0x9B].take (1 + 1 + 1 + 2 + 2)) :=
  ⟨(response_shape_received_fc [0x11, 0x83, 0x02, 0x9A, 0x9B] []).1
      (by decide) (by decide),
   (response_shape_received_fc c4_stream []).2.1 (by decide) (by decide) (by decide),
   by
    have h := (response_shape_received_fc [0x11, 0x03, 0x02, 0xAA, 0xBB, 0x9A, 0x9B] []).2.2
      (by decide) (by decide) (by decide)
    simpa using h⟩

/-- A CRC-valid reply from slave `0x22` with function code `0x03`. -/
def c10_reply : List Nat :=
  [0x22, 0x03, 0x02, 0xAA, 0xBB] ++ crc16_calculate [0x22, 0x03, 0x02, 0xAA, 0xBB]

set_option maxRecDepth 8192 in
/-- No reply-identity check, claim C10: the worker's response reader never
consults the request PDU (its result is the same for every request), and a
CRC-valid, well-shaped reply whose unit id (`0x22`) and function code
(`0x03`) differ from the request's (`0x11` and `0x06`) is accepted and
returned as the transaction's response PDU. -/
theorem reader_ignores_request_identity :
    (∀ stream p q : List Nat, read_rtu_response stream p = read_rtu_response stream q) ∧
    read_rtu_response c10_reply [0x06, 0x00, 0x01, 0x00, 0x03] =
      some [0x03, 0x02, 0xAA, 0xBB] ∧
    c10_reply.getD 0 0 = 0x22 ∧ (0x22 : Nat) ≠ 0x11 ∧
    [0x03, 0x02, 0xAA, 0xBB].getD 0 0 = 0x03 ∧ (0x03 : Nat) ≠ 0x06 := by
  refine ⟨?_, by decide, by decide, by decide, by decide, by decide⟩
  intro stream p q
  unfold read_rtu_response read_rtu_frame get_response_length
  rfl

theorem crc16_rounds_add (m n c : Nat) :
    crc16_rounds (m + n) c = crc16_rounds n (crc16_rounds m c) := by
  induction m generalizing c with
  | zero => rw [Nat.zero_add]; rfl
  | succ m ih =>
    have h : m + 1 + n = (m + n) + 1 := by omega
    rw [h]
    simp only [crc16_rounds]
    exact ih (crc16_step c)

theorem crc16_body_replicate_zero (m : Nat) (c : Nat) :
    crc16_body (List.replicate m 0) c = crc16_rounds (8 * m) c := by
  induction m generalizing c with
  | zero => rfl
  | succ m ih =>
    simp only [List.replicate_succ, crc16_body, Nat.xor_zero, ih]
    have h : 8 * (m + 1) = 8 + 8 * m := by ring
    rw [h, crc16_rounds_add]

/-- A 258-byte message for a byte-count-prefixed reply whose count byte is
`0xFF = 255`: unit id, function code `0x03`, count `0xFF`, 255 data bytes. -/
def c9_message : List Nat := [0x11, 0x03, 0xFF] ++ List.replicate 255 0x00

/-- The same message with its valid CRC appended: a 260-byte RTU frame. -/
def c9_frame : List Nat := c9_message ++ crc16_calculate c9_message

/-- The PDU the worker extracts from `c9_frame`: 257 bytes. -/
def c9_resp : List Nat := [0x03, 0xFF] ++ List.replicate 255 0x00

set_option maxRecDepth 40000 in
theorem crc16_body_c9_message : crc16_body c9_message 0xFFFF = 15126 := by
  have h3 : crc16_body [0x11, 0x03, 0xFF] 0xFFFF = 30049 := by decide
  have hsplit : crc16_body c9_message 0xFFFF =
      crc16_rounds (8 * 255) (crc16_body [0x11, 0x03, 0xFF] 0xFFFF) := by
    rw [c9_message, crc16_body_append, crc16_body_replicate_zero]
  rw [hsplit, h3]
  have h2040 : 8 * 255 = 408 + 408 + 408 + 408 + 408 := by norm_num
  have hc1 : crc16_rounds 408 30049 = 45951 := by decide
  have hc2 : crc16_rounds 408 45951 = 11568 := by decide
  have hc3 : crc16_rounds 408 11568 = 7926 := by decide
  have hc4 : crc16_rounds 408 7926 = 28407 := by decide
  have hc5 : crc16_rounds 408 28407 = 15126 := by decide
  rw [h2040, crc16_rounds_add, crc16_rounds_add, crc16_rounds_add,
    crc16_rounds_add, hc1, hc2, hc3, hc4, hc5]

theorem crc16_calculate_c9_message : crc16_calculate c9_message = [22, 59] := by
  simp only [crc16_calculate, crc16_body_c9_message]
  decide

theorem c9_frame_eq :
    c9_frame = [0x11, 0x03, 0xFF] ++ (List.replicate 255 0x00 ++ [22, 59]) := by
  rw [c9_frame, crc16_calculate_c9_message, c9_message, List.append_assoc]

set_option maxRecDepth 8000 in
/-- Counterexample to claim C9 as stated: a CRC-valid byte-count-prefixed
reply whose count byte is 255 is accepted by the worker and yields a
257-byte response PDU, so the session emits a 264-byte ADU — above the
253-byte PDU and 260-byte ADU bounds the claim asserts. -/
theorem output_size_overrun_counterexample :
    read_rtu_response c9_frame [0x03, 0x00, 0x6B, 0x00, 0x03] = some c9_resp ∧
    c9_resp.length = 257 ∧ ¬(c9_resp.length ≤ 253) ∧
    (send_response_frame 0x01 0x11 c9_resp).length = 264 ∧
    ¬((send_response_frame 0x01 0x11 c9_resp).length ≤ 260) := by
  refine ⟨?_, by decide, by decide, by decide, by decide⟩
  have hver : crc16_verify c9_frame = true := by
    show crc16_verify (c9_message ++ crc16_calculate c9_message) = true
    exact crc16_verify_frame_of_calculate c9_message (by decide)
  have hframe : read_rtu_frame c9_frame [0x03, 0x00, 0x6B, 0x00, 0x03] =
      some c9_frame := by
    rw [c9_frame_eq]
    decide
  unfold read_rtu_response
  rw [hframe]
  simp only [hver]
  rw [if_neg (by decide)]
  rw [c9_frame_eq]
  decide

theorem read_rtu_frame_length_le (stream p r : List Nat)
    (hbytes : ∀ x ∈ stream, x < 256)
    (h : read_rtu_frame stream p = some r) : r.length ≤ 260 := by
  unfold read_rtu_frame at h
  by_cases h2 : (stream.take 2).length < 2
  · rw [if_pos h2] at h; exact absurd h (by simp)
  · rw [if_neg h2] at h
    by_cases hexc : (stream.take 2).getD 1 0 &&& 0x80 ≠ 0
    · rw [if_pos hexc] at h
      by_cases h3 : ((stream.drop 2).take 3).length < 3
      · rw [if_pos h3] at h; exact absurd h (by simp)
      · rw [if_neg h3] at h
        have hr := Option.some.inj h
        rw [← hr]
        simp only [List.length_append, List.length_take, List.length_drop]
        omega
    · rw [if_neg hexc] at h
      by_cases hfx : (stream.take 2).getD 1 0 = 0x05 ∨ (stream.take 2).getD 1 0 = 0x06 ∨
          (stream.take 2).getD 1 0 = 0x0F ∨ (stream.take 2).getD 1 0 = 0x10
      · rw [show get_response_length ((stream.take 2).getD 1 0) p = some 4 from by
          unfold get_response_length; rw [if_pos hfx]] at h
        simp only at h
        by_cases h4 : ((stream.drop 2).take (4 + 2)).length < 4 + 2
        · rw [if_pos h4] at h; exact absurd h (by simp)
        · rw [if_neg h4] at h
          have hr := Option.some.inj h
          rw [← hr]
          simp only [List.length_append, List.length_take, List.length_drop]
          omega
      · rw [show get_response_length ((stream.take 2).getD 1 0) p = none from by
          unfold get_response_length; rw [if_neg hfx]] at h
        simp only at h
        by_cases h5 : ((stream.drop 2).take 1).length < 1
        · rw [if_pos h5] at h; exact absurd h (by simp)
        · rw [if_neg h5] at h
          have hslen : 3 ≤ stream.length := by
            rw [List.length_take, List.length_drop] at h5
            omega
          have hbc : ((stream.drop 2).take 1).getD 0 0 = stream.getD 2 0 := by
            rw [getD_take_of_lt _ 1 0 0 (by omega), getD_drop_add]
          have hbc255 : stream.getD 2 0 < 256 := by
            have h2lt : 2 < stream.length := by omega
            rw [List.getD_eq_getElem?_getD, List.getElem?_eq_getElem h2lt]
            exact hbytes _ (List.getElem_mem h2lt)
          rw [hbc] at h
          by_cases h6 : ((stream.drop 3).take (stream.getD 2 0 + 2)).length <
              stream.getD 2 0 + 2
          · rw [if_pos h6] at h; exact absurd h (by simp)
          · rw [if_neg h6] at h
            have hr := Option.some.inj h
            rw [← hr]
            simp only [List.length_append, List.length_take, List.length_drop]
            omega

/-- Output size bound, claim C9 amended: every response PDU the worker
forwards is at most 257 bytes (not 253: a byte-count-prefixed reply with
count byte up to 255 yields `255 + 2` PDU bytes), so every emitted MBAP
response ADU is at most 264 bytes (not 260). -/
theorem forwarded_pdu_length_bound (stream p resp : List Nat)
    (hbytes : ∀ x ∈ stream, x < 256)
    (h : read_rtu_response stream p = some resp) :
    resp.length ≤ 257 ∧
    ∀ tx unit, (send_response_frame tx unit resp).length ≤ 264 := by
  unfold read_rtu_response at h
  rcases hf : read_rtu_frame stream p with _ | r
  · rw [hf] at h; exact absurd h (by simp)
  · rw [hf] at h
    simp only at h
    by_cases hc : crc16_verify r = false
    · rw [if_pos hc] at h; exact absurd h (by simp)
    · rw [if_neg hc] at h
      have hr := Option.some.inj h
      have hlen := read_rtu_frame_length_le stream p r hbytes hf
      have h257 : resp.length ≤ 257 := by
        rw [← hr]
        simp only [List.length_dropLast, List.length_drop]
        omega
      refine ⟨h257, fun tx unit => ?_⟩
      simp only [send_response_frame, be16, List.length_append,
        List.length_cons, List.length_nil]
      omega

/-- Witness for the amended claim C9 at a concrete 5-byte exception reply. -/
theorem forwarded_pdu_length_bound_witness :
    ([0x83, 0x02] : List Nat).length ≤ 257 ∧
    (send_response_frame 0x07 0x22 [0x83, 0x02]).length ≤ 264 :=
  ⟨(forwarded_pdu_length_bound
      ([0x22, 0x83, 0x02] ++ crc16_calculate [0x22, 0x83, 0x02]) [0x03]
      [0x83, 0x02] (by decide) (by decide)).1,
   (forwarded_pdu_length_bound
      ([0x22, 0x83, 0x02] ++ crc16_calculate [0x22, 0x83, 0x02]) [0x03]
      [0x83, 0x02] (by decide) (by decide)).2 0x07 0x22⟩

/-! ## RTU worker retry loop — `RTUWorker.process_request` -/

/-- The serial environment one attempt of `process_request` sees: the serial
layer raises an exception at some point of the attempt, or the port delivers
a given byte stream to the response reader. -/
inductive SerialAttempt where
  | raised
  | stream (bytes : List Nat)
deriving DecidableEq

/-- Outcome of one attempt of the retry loop: the PDU `read_rtu_response`
returns, or `none` when the attempt failed (exception raised, read timeout,
or CRC error). -/
def attempt_result (request_pdu : List Nat) : SerialAttempt → Option (List Nat)
  | SerialAttempt.raised => none
  | SerialAttempt.stream s => read_rtu_response s request_pdu

/-- Model of the retry loop of `process_request` (`for attempt in
range(self.retry_count)`), over the per-attempt serial environments (one
entry per potential iteration, so the list has length `retry_count`).
Returns the number of attempts actually performed and the completion value:
`some pdu` for `request.set_response(pdu)`, `none` for
`request.set_error(...)` after the loop. -/
def process_request_loop (request_pdu : List Nat) :
    List SerialAttempt → Nat × Option (List Nat)
  | [] => (0, none)
  | a :: rest =>
    match attempt_result request_pdu a with
    | some resp => (1, some resp)
    | none =>
      let r := process_request_loop request_pdu rest
      (r.1 + 1, r.2)

/-- Retry semantics, claim C5: the worker performs at most `retry_count`
attempts; the first attempt whose reply frame is complete and CRC-valid
completes the transaction with the frame stripped of its unit id byte and
two CRC bytes and no further attempt is made; if every attempt fails the
transaction completes with an error (and the loop ran all attempts). -/
theorem process_request_retry_semantics (request_pdu : List Nat)
    (attempts : List SerialAttempt) :
    (process_request_loop request_pdu attempts).1 ≤ attempts.length ∧
    (∀ i s frame,
      (∀ k, k < i →
        attempt_result request_pdu (attempts.getD k SerialAttempt.raised) = none) →
      attempts.getD i SerialAttempt.raised = SerialAttempt.stream s →
      read_rtu_frame s request_pdu = some frame →
      crc16_verify frame = true →
      i < attempts.length →
      process_request_loop request_pdu attempts =
        (i + 1, some ((frame.drop 1).dropLast.dropLast))) ∧
    ((∀ a ∈ attempts, attempt_result request_pdu a = none) →
      (process_request_loop request_pdu attempts).2 = none ∧
      (process_request_loop request_pdu attempts).1 = attempts.length) := by
  refine ⟨?_, ?_, ?_⟩
  · induction attempts with
    | nil => simp [process_request_loop]
    | cons a rest ih =>
      simp only [process_request_loop]
      cases hres : attempt_result request_pdu a with
      | some resp => simp [List.length_cons]
      | none => simpa [List.length_cons] using ih
  · intro i s frame hprior hstream hframe hcrc hi
    induction attempts generalizing i with
    | nil => simp at hi
    | cons a rest ih =>
      cases i with
      | zero =>
        simp only [List.getD_cons_zero] at hstream
        subst hstream
        have hres : attempt_result request_pdu (SerialAttempt.stream s) =
            some ((frame.drop 1).dropLast.dropLast) := by
          simp only [attempt_result, read_rtu_response, hframe, hcrc]
          simp
        simp [process_request_loop, hres]
      | succ i =>
        have h0 : attempt_result request_pdu a = none := by
          have := hprior 0 (by omega)
          simpa using this
        simp only [List.getD_cons_succ] at hstream
        simp only [process_request_loop, h0]
        have hrec := ih i (fun k hk => by
            have := hprior (k + 1) (by omega)
            simpa using this)
          hstream (by simpa using hi)
        rw [hrec]
  · intro hall
    induction attempts with
    | nil => simp [process_request_loop]
    | cons a rest ih =>
      have h0 : attempt_result request_pdu a = none := hall a (by simp)
      simp only [process_request_loop, h0]
      have := ih (fun x hx => hall x (by simp [hx]))
      simp [List.length_cons, this.1, this.2]

set_option maxRecDepth 8192 in
/-- Witness for claim C5: a first attempt that raises followed by a second
attempt delivering a CRC-valid fixed-echo reply; the loop stops after two
attempts with the stripped PDU. -/
theorem process_request_retry_semantics_witness :
    process_request_loop [0x06, 0x00, 0x01, 0x00, 0x03]
      [SerialAttempt.raised,
       SerialAttempt.stream ([0x11, 0x06, 0x00, 0x01, 0x00, 0x03] ++
         crc16_calculate [0x11, 0x06, 0x00, 0x01, 0x00, 0x03])] =
      (1 + 1, some (((([0x11, 0x06, 0x00, 0x01, 0x00, 0x03] ++
        crc16_calculate [0x11, 0x06, 0x00, 0x01, 0x00, 0x03]).drop 1).dropLast).dropLast)) :=
  (process_request_retry_semantics [0x06, 0x00, 0x01, 0x00, 0x03]
      [SerialAttempt.raised,
       SerialAttempt.stream ([0x11, 0x06, 0x00, 0x01, 0x00, 0x03] ++
         crc16_calculate [0x11, 0x06, 0x00, 0x01, 0x00, 0x03])]).2.1
    1 ([0x11, 0x06, 0x00, 0x01, 0x00, 0x03] ++
        crc16_calculate [0x11, 0x06, 0x00, 0x01, 0x00, 0x03])
    ([0x11, 0x06, 0x00, 0x01, 0x00, 0x03] ++
        crc16_calculate [0x11, 0x06, 0x00, 0x01, 0x00, 0x03])
    (by decide) (by decide) (by decide) (by decide) (by decide)

/-! ## Session response phase and the handoff channel -/

/-- Outcome of a transaction as observed by the session after
`rtu_request.wait(...)`: the wait timed out, the worker set an error, or the
worker set a response PDU. -/
inductive RTUOutcome where
  | waitTimeout
  | workerError
  | response (pdu : List Nat)
deriving DecidableEq

/-- Model of the response phase of `handle`: on wait timeout or worker error
send the exception response with code `0x0B` (Gateway Target Device Failed
to Respond) built from the request PDU's first byte; otherwise forward the
worker's response PDU through `send_response`. -/
def session_response (transaction_id unit_id : Nat) (request_pdu : List Nat) :
    RTUOutcome → List Nat
  | RTUOutcome.waitTimeout =>
    send_exception_frame transaction_id unit_id request_pdu 0x0B
  | RTUOutcome.workerError =>
    send_exception_frame transaction_id unit_id request_pdu 0x0B
  | RTUOutcome.response pdu => send_response_frame transaction_id unit_id pdu

/-- Bus-failure exception mapping, claim C6: on a worker error or on expiry
of the session's wait, the session emits an MBAP frame carrying the original
transaction id and unit id whose PDU is exactly
`[orig_fc | 0x80, 0x0B]`, `orig_fc` being the request PDU's first byte. -/
theorem bus_failure_exception_mapping (transaction_id unit_id : Nat)
    (request_pdu : List Nat) (out : RTUOutcome)
    (h : out = RTUOutcome.waitTimeout ∨ out = RTUOutcome.workerError) :
    session_response transaction_id unit_id request_pdu out =
      be16 transaction_id ++ be16 0 ++ be16 3 ++ [unit_id] ++
        [request_pdu.getD 0 0 ||| 0x80, 0x0B] := by
  rcases h with h | h <;> subst h <;>
    simp [session_response, send_exception_frame, send_response_frame]

/-- Witness for claim C6 at scenario S3 of the specification. -/
theorem bus_failure_exception_mapping_witness :
    session_response 3 0x11 [0x03, 0x00, 0x6B, 0x00, 0x03]
      RTUOutcome.waitTimeout =
      be16 3 ++ be16 0 ++ be16 3 ++ [0x11] ++ [0x83, 0x0B] := by
  have h := bus_failure_exception_mapping 3 0x11 [0x03, 0x00, 0x6B, 0x00, 0x03]
    RTUOutcome.waitTimeout (Or.inl rfl)
  rw [h]
  decide

/-- Model of the handoff channel construction in
`ThreadedModbusServer.__init__`: the queue is created as `Queue()`, with no
`maxsize` argument, which Python's `queue` module records as `maxsize = 0`. -/
def rtu_queue_maxsize : Nat := 0

/-- Python `queue.Queue.put` treats the queue as full (and blocks) exactly
when `0 < maxsize` and `maxsize ≤ qsize`. -/
def queue_put_blocks (qsize : Nat) : Bool :=
  decide (0 < rtu_queue_maxsize) && decide (rtu_queue_maxsize ≤ qsize)

/-- Counterexample to claim C7 as stated: the session-to-worker handoff
channel is NOT bounded — it is created with `maxsize = 0`, infinite for
Python's `queue` module, and `put` does not block even at a queue size of
one million. -/
theorem handoff_channel_unbounded_counterexample :
    ¬ (0 < rtu_queue_maxsize) ∧ queue_put_blocks 1000000 = false := by decide

/-- Claim C7 amended: the handoff channel is unbounded (`Queue()` with
`maxsize = 0`), `put` never blocks at any queue size, and the session never
synthesizes a ServerBusy exception: the only exception code it ever emits
(on wait timeout or worker error) is `0x0B`, not `0x06`. -/
theorem handoff_channel_unbounded (qsize : Nat) (transaction_id unit_id : Nat)
    (request_pdu : List Nat) (out : RTUOutcome)
    (h : out = RTUOutcome.waitTimeout ∨ out = RTUOutcome.workerError) :
    rtu_queue_maxsize = 0 ∧
    queue_put_blocks qsize = false ∧
    (session_response transaction_id unit_id request_pdu out).getD 8 0 = 0x0B ∧
    (session_response transaction_id unit_id request_pdu out).getD 8 0 ≠ 0x06 := by
  refine ⟨rfl, by simp [queue_put_blocks, rtu_queue_maxsize], ?_, ?_⟩ <;>
    rcases h with h | h <;> subst h <;>
      simp [session_response, send_exception_frame, send_response_frame, be16]

/-- Witness for the amended claim C7. -/
theorem handoff_channel_unbounded_witness :
    rtu_queue_maxsize = 0 ∧
    queue_put_blocks 42 = false ∧
    (session_response 3 0x11 [0x03, 0x00, 0x6B, 0x00, 0x03]
      RTUOutcome.workerError).getD 8 0 = 0x0B ∧
    (session_response 3 0x11 [0x03, 0x00, 0x6B, 0x00, 0x03]
      RTUOutcome.workerError).getD 8 0 ≠ 0x06 :=
  handoff_channel_unbounded 42 3 0x11 [0x03, 0x00, 0x6B, 0x00, 0x03]
    RTUOutcome.workerError (Or.inr rfl)

/-- Counterexample to claim C8 as stated: on a header whose length field
yields `pdu_len = 255 > 253` the session loop does not terminate — the
frame is skipped (`SessionStep.skipped`, the loop `continue`s) instead of
the connection being dropped (`SessionStep.closed`). -/
theorem malformed_length_skip_counterexample :
    handle_read_request [0x00, 0x05, 0x00, 0x00, 0x01, 0x00, 0x11] =
      SessionStep.skipped [] ∧
    SessionStep.skipped [] ≠ SessionStep.closed := by decide

/-- Claim C8 amended: on a received MBAP header with `pdu_len = length - 1`
out of range `[1, 253]`, the session sends no response bytes for the frame
but does NOT drop the connection: the loop continues reading at the next
byte after the 7 header bytes (any PDU bytes of the malformed frame are
left in the stream). -/
theorem malformed_length_skips_frame (stream : List Nat)
    (h7 : 7 ≤ stream.length)
    (hproto : stream.getD 2 0 * 256 + stream.getD 3 0 = 0)
    (hlen : ((stream.getD 4 0 * 256 + stream.getD 5 0 : Nat) : Int) - 1 < 1 ∨
      253 < ((stream.getD 4 0 * 256 + stream.getD 5 0 : Nat) : Int) - 1) :
    handle_read_request stream = SessionStep.skipped (stream.drop 7) := by
  unfold handle_read_request
  rw [if_neg (by omega), if_neg (by rw [hproto]; simp), if_pos hlen]

/-- Witness for the amended claim C8: a header with length field 1
(`pdu_len = 0`). -/
theorem malformed_length_skips_frame_witness :
    handle_read_request [0x00, 0x06, 0x00, 0x00, 0x00, 0x01, 0x11] =
      SessionStep.skipped ([0x00, 0x06, 0x00, 0x00, 0x00, 0x01, 0x11].drop 7) :=
  malformed_length_skips_frame [0x00, 0x06, 0x00, 0x00, 0x00, 0x01, 0x11]
    (by decide) (by decide) (by decide)

/-! ## Worker loop trace — `RTUWorker.run`

The worker is the sole thread touching the serial port; `run` dequeues one
transaction at a time from the FIFO queue and calls `process_request` to
completion before dequeuing the next.  The handoff channel is modelled as
the list of queued transactions in submission order; the serial bus trace is
the concatenation of each transaction's serial events.  Every attempt of
`process_request` issues at most one write and finishes its read (with data,
a timeout, or an error) before the attempt ends, so an attempt contributes a
write event followed by a read-completion event. -/

/-- A bus event, tagged with the submission index of its transaction. -/
inductive BusEvent where
  | write (tx : Nat)
  | readDone (tx : Nat)
deriving DecidableEq

/-- The submission index of the transaction an event belongs to. -/
def BusEvent.tag : BusEvent → Nat
  | BusEvent.write t => t
  | BusEvent.readDone t => t

/-- Serial events of `n` attempts of transaction `t`: each attempt writes
the request frame and then completes one read before the attempt ends. -/
def attempt_events (t : Nat) : Nat → List BusEvent
  | 0 => []
  | n + 1 => BusEvent.write t :: BusEvent.readDone t :: attempt_events t n

/-- Serial events of one queued transaction (its request PDU paired with the
serial environment of each retry attempt), as produced by the attempts
`process_request` actually performs. -/
def tx_events (t : Nat) (req : List Nat × List SerialAttempt) : List BusEvent :=
  attempt_events t (process_request_loop req.1 req.2).1

/-- The worker loop `run` from queue position `t`: execute each transaction
to completion, in FIFO order, before dequeuing the next. -/
def worker_trace_from (t : Nat) :
    List (List Nat × List SerialAttempt) → List BusEvent
  | [] => []
  | q :: rest => tx_events t q ++ worker_trace_from (t + 1) rest

/-- The serial bus trace of the worker over a queue of transactions listed
in submission order. -/
def worker_trace (queue : List (List Nat × List SerialAttempt)) : List BusEvent :=
  worker_trace_from 0 queue

theorem attempt_events_tag (t n : Nat) (e : BusEvent)
    (h : e ∈ attempt_events t n) : e.tag = t := by
  induction n with
  | zero => simp [attempt_events] at h
  | succ n ih =>
    simp only [attempt_events, List.mem_cons] at h
    rcases h with h | h | h
    · subst h; rfl
    · subst h; rfl
    · exact ih h

theorem worker_trace_from_tag (t : Nat)
    (queue : List (List Nat × List SerialAttempt)) (e : BusEvent)
    (h : e ∈ worker_trace_from t queue) : t ≤ e.tag := by
  induction queue generalizing t with
  | nil => simp [worker_trace_from] at h
  | cons x rest ih =>
    simp only [worker_trace_from, List.mem_append] at h
    rcases h with h | h
    · rw [attempt_events_tag t _ e (by simpa [tx_events] using h)]
    · have := ih (t + 1) h
      omega

theorem pairwise_tag_of_const (l : List BusEvent) (t : Nat)
    (h : ∀ e ∈ l, BusEvent.tag e = t) :
    l.Pairwise (fun a b => BusEvent.tag a ≤ BusEvent.tag b) := by
  induction l with
  | nil => simp
  | cons x xs ih =>
    rw [List.pairwise_cons]
    constructor
    · intro b hb
      rw [h x (by simp), h b (by simp [hb])]
    · exact ih (fun e he => h e (by simp [he]))

theorem worker_trace_from_sorted (t : Nat)
    (queue : List (List Nat × List SerialAttempt)) :
    (worker_trace_from t queue).Pairwise
      (fun a b => BusEvent.tag a ≤ BusEvent.tag b) := by
  induction queue generalizing t with
  | nil => simp [worker_trace_from]
  | cons x rest ih =>
    simp only [worker_trace_from]
    rw [List.pairwise_append]
    refine ⟨pairwise_tag_of_const _ t
        (fun e he => attempt_events_tag t _ e (by simpa [tx_events] using he)),
      ih (t + 1), ?_⟩
    intro a ha b hb
    rw [attempt_events_tag t _ a (by simpa [tx_events] using ha)]
    have := worker_trace_from_tag (t + 1) rest b hb
    omega

/-- A trace is well paired when every write event is immediately followed by
the read completion of the same transaction. -/
def EventsPaired (l : List BusEvent) : Prop :=
  ∀ p t, l.getD p (BusEvent.readDone 0) = BusEvent.write t →
    p + 1 < l.length ∧ l.getD (p + 1) (BusEvent.readDone 0) = BusEvent.readDone t

theorem events_paired_nil : EventsPaired [] := by
  intro p t h
  simp [List.getD] at h

theorem events_paired_pair (t' : Nat) (rest : List BusEvent)
    (h : EventsPaired rest) :
    EventsPaired (BusEvent.write t' :: BusEvent.readDone t' :: rest) := by
  intro p t hp
  match p with
  | 0 =>
    simp only [List.getD_cons_zero] at hp
    injection hp with he
    subst he
    exact ⟨by simp [List.length_cons], by simp⟩
  | 1 =>
    simp only [List.getD_cons_succ, List.getD_cons_zero] at hp
    exact absurd hp (by simp)
  | p + 2 =>
    simp only [List.getD_cons_succ] at hp
    obtain ⟨h1, h2⟩ := h p t hp
    refine ⟨by simp only [List.length_cons]; omega, by simpa using h2⟩

theorem events_paired_attempt (t' : Nat) (rest : List BusEvent)
    (hr : EventsPaired rest) (n : Nat) :
    EventsPaired (attempt_events t' n ++ rest) := by
  induction n with
  | zero => simpa [attempt_events] using hr
  | succ n ih =>
    simp only [attempt_events, List.cons_append]
    exact events_paired_pair t' _ ih

theorem events_paired_trace (t : Nat)
    (queue : List (List Nat × List SerialAttempt)) :
    EventsPaired (worker_trace_from t queue) := by
  induction queue generalizing t with
  | nil => exact events_paired_nil
  | cons x rest ih =>
    simp only [worker_trace_from, tx_events]
    exact events_paired_attempt t _ (ih (t + 1)) _

/-- FIFO order and single-master behaviour, claim C1: in the worker's serial
trace over any queue of submitted transactions, (1) event order respects
submission order — every event of a later-submitted transaction comes
strictly after every event of an earlier one, so in particular no write of a
later transaction precedes a write of an earlier one — and (2) every write
is immediately followed by the completion of its own transaction's read, so
no write is ever issued while a prior read is still pending. -/
theorem fifo_single_master_trace (queue : List (List Nat × List SerialAttempt)) :
    (∀ p q : Nat, p < q → q < (worker_trace queue).length →
      BusEvent.tag ((worker_trace queue).getD p (BusEvent.readDone 0)) ≤
        BusEvent.tag ((worker_trace queue).getD q (BusEvent.readDone 0))) ∧
    (∀ p t, (worker_trace queue).getD p (BusEvent.readDone 0) = BusEvent.write t →
      p + 1 < (worker_trace queue).length ∧
      (worker_trace queue).getD (p + 1) (BusEvent.readDone 0) =
        BusEvent.readDone t) := by
  constructor
  · intro p q hpq hq
    have hp : p < (worker_trace queue).length := by omega
    have hsorted := worker_trace_from_sorted 0 queue
    have h := (List.pairwise_iff_getElem.mp hsorted) p q hp hq hpq
    rw [List.getD_eq_getElem?_getD, List.getElem?_eq_getElem hp,
      List.getD_eq_getElem?_getD, List.getElem?_eq_getElem hq]
    exact h
  · exact events_paired_trace 0 queue

/-- Witness for claim C1 at a queue of two one-attempt transactions: the
trace is `[write 0, readDone 0, write 1, readDone 1]`. -/
theorem fifo_single_master_trace_witness :
    BusEvent.tag ((worker_trace
        [([0x06], [SerialAttempt.stream []]), ([0x03], [SerialAttempt.raised])]).getD
      1 (BusEvent.readDone 0)) ≤
      BusEvent.tag ((worker_trace
        [([0x06], [SerialAttempt.stream []]), ([0x03], [SerialAttempt.raised])]).getD
      2 (BusEvent.readDone 0)) ∧
    (0 + 1 < (worker_trace
        [([0x06], [SerialAttempt.stream []]), ([0x03], [SerialAttempt.raised])]).length ∧
      (worker_trace
        [([0x06], [SerialAttempt.stream []]), ([0x03], [SerialAttempt.raised])]).getD
        (0 + 1) (BusEvent.readDone 0) = BusEvent.readDone 0) :=
  ⟨(fifo_single_master_trace
      [([0x06], [SerialAttempt.stream []]), ([0x03], [SerialAttempt.raised])]).1
    1 2 (by decide) (by decide),
   (fifo_single_master_trace
      [([0x06], [SerialAttempt.stream []]), ([0x03], [SerialAttempt.raised])]).2
    0 0 (by decide)⟩
